import Mathlib

/-!
Verification of the 123pan uploader's upload-session protocol
(`src/file_uploader.py`, `Pan123Uploader.upload_file` and its helpers,
mirrored by `Pan123FileManager.upload_file` in `src/get_token.py`).

The remote service is modelled as a record of already-decoded responses
(`Remote`): the create-file response tuple exactly as `create_file`
returns it after applying its `.get` defaults, the transport success bit
for each chunk push, the server's part list, the complete-upload
response, and the sequence of poll-async responses.  `upload_file` is
embedded as a pure function of the file's bytes and that record,
returning the result (`Except UploadError Nat`, the raised exception or
the returned file id) together with the list of remote calls issued, in
order.  MD5 itself is kept abstract as a parameter `md5hex` (hashlib's
`update`/`hexdigest` semantics: the digest is a function of the absorbed
byte sequence), so every theorem holds for the real digest function.
-/

namespace Pan123

/-- Exact ceiling division on naturals, modelling
`math.ceil(file_size / slice_size)` at line 150 of `file_uploader.py`. -/
def ceilDiv (a b : Nat) : Nat := (a + b - 1) / b

/-- Bytes of the 0-based chunk `i`: the sequential `f.read(slice_size)`
loop hands chunk `i` the bytes `[i*K, i*K + K)` (clipped at the end of
the file). -/
def chunkOf (content : List Nat) (K i : Nat) : List Nat :=
  (content.drop (i * K)).take K

/-- Decoded create-file response, exactly the 4-tuple `create_file`
returns on `code == 0` (lines 70-76): missing `preuploadID` decodes to
`""`, missing `fileID` to `0`, missing `reuse` to `false`, missing
`sliceSize` to `0`. -/
structure CreateResp where
  preuploadID : String
  fileID : Nat
  reuse : Bool
  sliceSize : Nat
deriving DecidableEq

/-- Decoded complete-upload response (lines 114-119). -/
structure CompleteResp where
  fileID : Nat
  isAsync : Bool
  completed : Bool
deriving DecidableEq

/-- One entry of the server's `list_upload_parts` answer. -/
structure Part where
  partNumber : Nat
  etag : String
deriving DecidableEq

/-- One entry of the local `uploaded_chunks` list (lines 168-171). -/
structure LocalPart where
  partNumber : Nat
  etag : String
deriving DecidableEq

/-- A remote call issued by `upload_file`, in program order. -/
inductive Call where
  | getUploadUrl (preuploadID : String) (sliceNo : Nat)
  | putChunk (sliceNo : Nat)
  | listParts (preuploadID : String)
  | completeUpload (preuploadID : String)
  | checkAsync (preuploadID : String)
deriving DecidableEq

/-- The exception `upload_file` can raise after a successful create-file
call: ZeroDivisionError from `math.ceil(file_size / 0)`, the chunk-push
failure at line 166 (carrying the `uploaded_chunks` recorded so far),
the verification failure at line 185, or divergence of the unbounded
poll loop (lines 194-199) when no poll response ever completes. -/
inductive UploadError where
  | divisionByZero
  | chunkUploadFailed (sliceNo : Nat) (recorded : List LocalPart)
  | verifyFailed (partNumber : Nat)
  | pollNeverCompletes
deriving DecidableEq

/-- The remote service's decoded responses for one upload session. -/
structure Remote where
  create : CreateResp
  putOk : Nat → Bool
  parts : List Part
  complete : CompleteResp
  asyncResults : List (Bool × Nat)

/-- The hashlib absorb loop of `calculate_file_md5` (lines 29-33):
repeatedly read a window of at most 4096 bytes and feed it to `update`
until the read returns empty.  The md5 object's state is the absorbed
byte sequence (repeated `update` calls are equivalent to one call on
the concatenation). -/
def md5UpdateLoop (absorbed rest : List Nat) : List Nat :=
  if h : rest.isEmpty then absorbed
  else md5UpdateLoop (absorbed ++ rest.take 4096) (rest.drop 4096)
termination_by rest.length
decreasing_by
  have hne : rest ≠ [] := fun he => by simp [he] at h
  have hpos : 0 < rest.length := List.length_pos.mpr hne
  simp only [List.length_drop]
  omega

/-- `Pan123Uploader.calculate_file_md5`: digest of the whole file,
computed incrementally over 4096-byte windows. -/
def calculate_file_md5 (md5hex : List Nat → String) (content : List Nat) : String :=
  md5hex (md5UpdateLoop [] content)

/-- `Pan123Uploader.calculate_chunk_md5`: digest of one chunk in a
single call. -/
def calculate_chunk_md5 (md5hex : List Nat → String) (chunk : List Nat) : String :=
  md5hex chunk

/-- The chunk-upload loop (lines 153-171): for each chunk index, request
an upload URL, push the chunk, and on transport success append
`{partNumber, etag}` to the accumulator; a non-200 push raises
immediately, carrying the accumulator recorded so far. -/
def chunkLoop (md5hex : List Nat → String) (content : List Nat) (K : Nat) (pid : String)
    (putOk : Nat → Bool) :
    List Nat → List LocalPart → Except (Nat × List LocalPart) (List LocalPart) × List Call
  | [], acc => (Except.ok acc, [])
  | i :: rest, acc =>
    let sliceNo := i + 1
    let chunk := chunkOf content K i
    if putOk sliceNo then
      let step := chunkLoop md5hex content K pid putOk rest
        (acc ++ [⟨sliceNo, calculate_chunk_md5 md5hex chunk⟩])
      (step.1, Call.getUploadUrl pid sliceNo :: Call.putChunk sliceNo :: step.2)
    else
      (Except.error (sliceNo, acc), [Call.getUploadUrl pid sliceNo, Call.putChunk sliceNo])

/-- `next((p for p in server_parts if p['partNumber'] == n), None)`
(lines 180-183). -/
def findPart (parts : List Part) (n : Nat) : Option Part :=
  parts.find? fun p => p.partNumber == n

/-- The verification loop (lines 179-185): the first local part with no
server entry of the same `partNumber`, or whose server etag differs,
aborts the upload; returns that part number, or `none` when every local
part matches. -/
def verifyParts (serverParts : List Part) : List LocalPart → Option Nat
  | [] => none
  | lp :: rest =>
    match findPart serverParts lp.partNumber with
    | none => some lp.partNumber
    | some sp => if sp.etag = lp.etag then verifyParts serverParts rest else some lp.partNumber

/-- The async poll loop (lines 194-199) against the given sequence of
poll responses: returns the file id of the first response with
`completed = true` together with the number of poll calls made, or
`none` when no response in the sequence completes (the real loop would
then poll forever). -/
def pollLoop : List (Bool × Nat) → Option (Nat × Nat)
  | [] => none
  | (c, fid) :: rest =>
    if c then some (fid, 1)
    else
      match pollLoop rest with
      | some (f, n) => some (f, n + 1)
      | none => none

/-- Steps 4-5 of `upload_file` (lines 188-202): call complete-upload,
and if the response says async, poll until completed and adopt the
polled file id. -/
def finishUpload (r : Remote) (callsSoFar : List Call) :
    Except UploadError Nat × List Call :=
  let pid := r.create.preuploadID
  if r.complete.isAsync then
    match pollLoop r.asyncResults with
    | some (fid, n) =>
      (Except.ok fid,
        callsSoFar ++ [Call.completeUpload pid] ++ List.replicate n (Call.checkAsync pid))
    | none =>
      (Except.error UploadError.pollNeverCompletes,
        callsSoFar ++ [Call.completeUpload pid]
          ++ List.replicate r.asyncResults.length (Call.checkAsync pid))
  else (Except.ok r.complete.fileID, callsSoFar ++ [Call.completeUpload pid])

/-- `Pan123Uploader.upload_file` (lines 134-202), given the decoded
create-file response and the remote's behaviour: the reuse
short-circuit, `total_chunks = math.ceil(file_size / slice_size)`
(ZeroDivisionError when `slice_size = 0`), the chunk loop, the
verification step guarded by `file_size > slice_size`, and completion
with optional async polling. -/
def upload_file (md5hex : List Nat → String) (content : List Nat) (r : Remote) :
    Except UploadError Nat × List Call :=
  let c := r.create
  if c.reuse then (Except.ok c.fileID, [])
  else if c.sliceSize = 0 then (Except.error UploadError.divisionByZero, [])
  else
    let fileSize := content.length
    let totalChunks := ceilDiv fileSize c.sliceSize
    match chunkLoop md5hex content c.sliceSize c.preuploadID r.putOk
        (List.range totalChunks) [] with
    | (Except.error e, calls) =>
      (Except.error (UploadError.chunkUploadFailed e.1 e.2), calls)
    | (Except.ok localParts, chunkCalls) =>
      if c.sliceSize < fileSize then
        match verifyParts r.parts localParts with
        | some k =>
          (Except.error (UploadError.verifyFailed k),
            chunkCalls ++ [Call.listParts c.preuploadID])
        | none => finishUpload r (chunkCalls ++ [Call.listParts c.preuploadID])
      else finishUpload r chunkCalls

/-- The `uploaded_chunks` list produced by a fully successful chunk
loop: one record per chunk index `1..totalChunks`, in order, each
carrying the md5 of that chunk's bytes. -/
def localRecords (md5hex : List Nat → String) (content : List Nat) (K : Nat) :
    List LocalPart :=
  (List.range (ceilDiv content.length K)).map
    fun i => ⟨i + 1, calculate_chunk_md5 md5hex (chunkOf content K i)⟩

/-- The calls issued by the chunk loop for the given chunk indices. -/
def chunkCallsFor (pid : String) (idxs : List Nat) : List Call :=
  (idxs.map fun i => [Call.getUploadUrl pid (i + 1), Call.putChunk (i + 1)]).flatten

def isPut : Call → Bool
  | Call.putChunk _ => true
  | _ => false

def isGet : Call → Bool
  | Call.getUploadUrl _ _ => true
  | _ => false

def isAsyncCall : Call → Bool
  | Call.checkAsync _ => true
  | _ => false

/-- Number of chunk-transfer pushes in a trace. -/
def countPut (t : List Call) : Nat := (t.filter isPut).length

/-- Number of get-chunk-target calls in a trace. -/
def countGet (t : List Call) : Nat := (t.filter isGet).length

/-- Number of poll-async-result calls in a trace. -/
def countAsync (t : List Call) : Nat := (t.filter isAsyncCall).length

/-- Whether a local part has a matching server entry: same part number
and equal digest. -/
def matchesServer (serverParts : List Part) (lp : LocalPart) : Bool :=
  match findPart serverParts lp.partNumber with
  | none => false
  | some sp => sp.etag == lp.etag

/-! ### Helper lemmas -/

theorem md5UpdateLoop_fuel (n : Nat) : ∀ (absorbed rest : List Nat),
    rest.length ≤ n → md5UpdateLoop absorbed rest = absorbed ++ rest := by
  induction n with
  | zero =>
    intro absorbed rest hle
    have hnil : rest = [] := List.eq_nil_of_length_eq_zero (Nat.le_zero.mp hle)
    subst hnil
    rw [md5UpdateLoop]
    simp
  | succ n ih =>
    intro absorbed rest hle
    rw [md5UpdateLoop]
    by_cases hre : rest.isEmpty
    · simp [hre]
      have : rest = [] := by simpa [List.isEmpty_iff] using hre
      simp [this]
    · simp only [hre]
      have hne : rest ≠ [] := by simpa [List.isEmpty_iff] using hre
      have hpos : 0 < rest.length := List.length_pos.mpr hne
      have hlen : (rest.drop 4096).length ≤ n := by
        simp only [List.length_drop]
        omega
      rw [ih _ _ hlen, List.append_assoc, List.take_append_drop]
      simp [hre]

theorem md5UpdateLoop_eq (absorbed rest : List Nat) :
    md5UpdateLoop absorbed rest = absorbed ++ rest :=
  md5UpdateLoop_fuel rest.length absorbed rest (Nat.le_refl _)

theorem ceilDiv_zero_left (K : Nat) : ceilDiv 0 K = 0 := by
  unfold ceilDiv
  rcases Nat.eq_zero_or_pos K with h | h
  · simp [h]
  · simpa using Nat.div_eq_of_lt (by omega)

theorem ceilDiv_self (K : Nat) (hK : 0 < K) : ceilDiv K K = 1 := by
  unfold ceilDiv
  have h1 : K + K - 1 = (K - 1) + K := by omega
  rw [h1, Nat.add_div_right _ hK, Nat.div_eq_of_lt (by omega)]

theorem one_lt_ceilDiv_iff (S K : Nat) (hK : 0 < K) : 1 < ceilDiv S K ↔ K < S := by
  unfold ceilDiv
  constructor
  · intro h
    have h2 : 2 * K ≤ S + K - 1 := (Nat.le_div_iff_mul_le hK).mp h
    omega
  · intro h
    exact (Nat.le_div_iff_mul_le hK).mpr (by omega)

theorem ceilDiv_sub (L K : Nat) (hL : 0 < L) (hK : 0 < K) :
    ceilDiv L K = ceilDiv (L - K) K + 1 := by
  unfold ceilDiv
  have h1 : L + K - 1 = (L - 1) + K := by omega
  rw [h1, Nat.add_div_right _ hK]
  rcases Nat.lt_or_ge K L with h | h
  · have h2 : L - K + K - 1 = (L - K - 1) + K := by omega
    rw [h2, Nat.add_div_right _ hK]
    have h3 : L - 1 = (L - K - 1) + K := by omega
    rw [h3, Nat.add_div_right _ hK]
  · have h2 : L - K = 0 := by omega
    rw [h2]
    have h3 : L - 1 < K := by omega
    rw [Nat.div_eq_of_lt h3]
    simpa using Nat.div_eq_of_lt (show 0 + K - 1 < K by omega)

theorem chunkLoop_ok (md5hex : List Nat → String) (content : List Nat) (K : Nat)
    (pid : String) (putOk : Nat → Bool) (hput : ∀ n, putOk n = true) :
    ∀ (idxs : List Nat) (acc : List LocalPart),
      chunkLoop md5hex content K pid putOk idxs acc =
        (Except.ok (acc ++ idxs.map fun i =>
            ⟨i + 1, calculate_chunk_md5 md5hex (chunkOf content K i)⟩),
         chunkCallsFor pid idxs) := by
  intro idxs
  induction idxs with
  | nil => intro acc; simp [chunkLoop, chunkCallsFor]
  | cons i rest ih =>
    intro acc
    simp only [chunkLoop, hput, if_true, ih, List.append_assoc, List.singleton_append,
      List.map_cons, chunkCallsFor, List.flatten_cons]
    rfl

theorem chunkCallsFor_countPut (pid : String) :
    ∀ idxs : List Nat, countPut (chunkCallsFor pid idxs) = idxs.length := by
  intro idxs
  induction idxs with
  | nil => simp [chunkCallsFor, countPut]
  | cons i rest ih =>
    simp only [chunkCallsFor, countPut, List.map_cons, List.flatten_cons,
      List.filter_append] at ih ⊢
    simp only [List.length_append, ih, List.length_cons]
    simp [List.filter, isPut]
    omega

theorem chunkCallsFor_countGet (pid : String) :
    ∀ idxs : List Nat, countGet (chunkCallsFor pid idxs) = idxs.length := by
  intro idxs
  induction idxs with
  | nil => simp [chunkCallsFor, countGet]
  | cons i rest ih =>
    simp only [chunkCallsFor, countGet, List.map_cons, List.flatten_cons,
      List.filter_append] at ih ⊢
    simp only [List.length_append, ih, List.length_cons]
    simp [List.filter, isGet]
    omega

theorem chunkCallsFor_countAsync (pid : String) :
    ∀ idxs : List Nat, countAsync (chunkCallsFor pid idxs) = 0 := by
  intro idxs
  induction idxs with
  | nil => simp [chunkCallsFor, countAsync]
  | cons i rest ih =>
    simp only [chunkCallsFor, countAsync, List.map_cons, List.flatten_cons,
      List.filter_append] at ih ⊢
    simp only [List.length_append, ih]
    simp [List.filter, isAsyncCall]

theorem chunkCallsFor_no_listParts (pid p : String) :
    ∀ idxs : List Nat, Call.listParts p ∉ chunkCallsFor pid idxs := by
  intro idxs
  induction idxs with
  | nil => simp [chunkCallsFor]
  | cons i rest ih =>
    simp only [chunkCallsFor, List.map_cons, List.flatten_cons, List.mem_append] at ih ⊢
    rintro (h | h)
    · simp at h
    · exact ih h

theorem chunkCallsFor_no_complete (pid p : String) :
    ∀ idxs : List Nat, Call.completeUpload p ∉ chunkCallsFor pid idxs := by
  intro idxs
  induction idxs with
  | nil => simp [chunkCallsFor]
  | cons i rest ih =>
    simp only [chunkCallsFor, List.map_cons, List.flatten_cons, List.mem_append] at ih ⊢
    rintro (h | h)
    · simp at h
    · exact ih h

theorem chunkLoop_fail (md5hex : List Nat → String) (content : List Nat) (K : Nat)
    (pid : String) (putOk : Nat → Bool) (k : Nat) (hfail : putOk k = false)
    (hbefore : ∀ n, n < k → putOk n = true) :
    ∀ (b a : Nat) (acc : List LocalPart), a < k → k ≤ a + b →
      chunkLoop md5hex content K pid putOk (List.range' a b) acc =
        (Except.error (k, acc ++ (List.range' a (k - 1 - a)).map fun i =>
            ⟨i + 1, calculate_chunk_md5 md5hex (chunkOf content K i)⟩),
         chunkCallsFor pid (List.range' a (k - a))) := by
  intro b
  induction b with
  | zero => intro a acc h1 h2; omega
  | succ b ih =>
    intro a acc h1 h2
    rw [List.range'_succ]
    by_cases hak : a + 1 = k
    · have hput : putOk (a + 1) = false := by rw [hak]; exact hfail
      simp only [chunkLoop, hput, Bool.false_eq_true, if_false]
      have e1 : k - 1 - a = 0 := by omega
      have e2 : k - a = 1 := by omega
      rw [e1, e2, List.range'_one]
      simp [chunkCallsFor]
      omega
    · have halt : a + 1 < k := by omega
      have hput : putOk (a + 1) = true := hbefore (a + 1) halt
      simp only [chunkLoop, hput, if_true]
      have hIH := ih (a + 1)
        (acc ++ [(⟨a + 1, calculate_chunk_md5 md5hex (chunkOf content K a)⟩ : LocalPart)])
        halt (by omega)
      rw [hIH]
      have e1 : k - 1 - a = (k - 1 - (a + 1)) + 1 := by omega
      have e2 : k - a = (k - (a + 1)) + 1 := by omega
      rw [e1, e2, List.range'_succ, List.range'_succ]
      simp [chunkCallsFor, List.append_assoc]

theorem pollTail_countPut (p : String) (n : Nat) :
    (List.replicate n (Call.checkAsync p)).filter isPut = [] := by
  induction n with
  | zero => simp
  | succ n ih => simp [List.replicate_succ, List.filter, isPut, ih]

theorem pollTail_countGet (p : String) (n : Nat) :
    (List.replicate n (Call.checkAsync p)).filter isGet = [] := by
  induction n with
  | zero => simp
  | succ n ih => simp [List.replicate_succ, List.filter, isGet, ih]

theorem pollTail_countAsync (p : String) (n : Nat) :
    countAsync (List.replicate n (Call.checkAsync p)) = n := by
  induction n with
  | zero => simp [countAsync]
  | succ n ih =>
    simp only [countAsync, List.replicate_succ, List.filter_cons, isAsyncCall,
      if_true, List.length_cons] at ih ⊢
    omega

theorem pollTail_no_listParts (p q : String) (n : Nat) :
    Call.listParts q ∉ List.replicate n (Call.checkAsync p) := by
  intro h
  have := List.eq_of_mem_replicate h
  simp at this

theorem pollTail_no_complete (p q : String) (n : Nat) :
    Call.completeUpload q ∉ List.replicate n (Call.checkAsync p) := by
  intro h
  have := List.eq_of_mem_replicate h
  simp at this

theorem finishUpload_complete_mem (r : Remote) (calls : List Call) :
    Call.completeUpload r.create.preuploadID ∈ (finishUpload r calls).2 := by
  unfold finishUpload
  by_cases ha : r.complete.isAsync
  · simp only [ha, if_true]
    cases hp : pollLoop r.asyncResults with
    | none => simp
    | some v => simp
  · simp [ha]

theorem finishUpload_listParts_mem (r : Remote) (calls : List Call) (p : String) :
    (Call.listParts p ∈ (finishUpload r calls).2 ↔ Call.listParts p ∈ calls) := by
  unfold finishUpload
  by_cases ha : r.complete.isAsync
  · simp only [ha, if_true]
    cases hp : pollLoop r.asyncResults with
    | none => simp [pollTail_no_listParts]
    | some v => simp [pollTail_no_listParts]
  · simp [ha]

theorem finishUpload_countPut (r : Remote) (calls : List Call) :
    countPut (finishUpload r calls).2 = countPut calls := by
  unfold finishUpload
  by_cases ha : r.complete.isAsync
  · simp only [ha, if_true]
    cases hp : pollLoop r.asyncResults with
    | none => simp [countPut, List.filter_append, pollTail_countPut, List.filter, isPut]
    | some v => simp [countPut, List.filter_append, pollTail_countPut, List.filter, isPut]
  · simp [ha, countPut, List.filter_append, List.filter, isPut]

theorem finishUpload_countGet (r : Remote) (calls : List Call) :
    countGet (finishUpload r calls).2 = countGet calls := by
  unfold finishUpload
  by_cases ha : r.complete.isAsync
  · simp only [ha, if_true]
    cases hp : pollLoop r.asyncResults with
    | none => simp [countGet, List.filter_append, pollTail_countGet, List.filter, isGet]
    | some v => simp [countGet, List.filter_append, pollTail_countGet, List.filter, isGet]
  · simp [ha, countGet, List.filter_append, List.filter, isGet]

/-- Evaluation of `upload_file` when the create-file response is not a
reuse, the slice size is non-zero, and every chunk push succeeds: the
chunk loop records `localRecords` and the rest of the session is the
verification guard followed by `finishUpload`. -/
theorem upload_file_ok_eq (md5hex : List Nat → String) (content : List Nat) (r : Remote)
    (hre : r.create.reuse = false) (hK : r.create.sliceSize ≠ 0)
    (hput : ∀ n, r.putOk n = true) :
    upload_file md5hex content r =
      (let pid := r.create.preuploadID
       let chunkCalls := chunkCallsFor pid (List.range (ceilDiv content.length r.create.sliceSize))
       if r.create.sliceSize < content.length then
         match verifyParts r.parts (localRecords md5hex content r.create.sliceSize) with
         | some k =>
           (Except.error (UploadError.verifyFailed k), chunkCalls ++ [Call.listParts pid])
         | none => finishUpload r (chunkCalls ++ [Call.listParts pid])
       else finishUpload r chunkCalls) := by
  simp only [upload_file, hre, Bool.false_eq_true, if_false, hK,
    chunkLoop_ok md5hex content r.create.sliceSize r.create.preuploadID r.putOk hput,
    List.nil_append, localRecords]

theorem chunkOf_succ (content : List Nat) (K i : Nat) :
    chunkOf content K (i + 1) = chunkOf (content.drop K) K i := by
  unfold chunkOf
  rw [List.drop_drop]
  congr 2
  ring

theorem chunks_flatten_fuel (K : Nat) (hK : 0 < K) : ∀ (n : Nat) (content : List Nat),
    content.length ≤ n →
    ((List.range (ceilDiv content.length K)).map (chunkOf content K)).flatten = content := by
  intro n
  induction n with
  | zero =>
    intro content h
    have hnil : content = [] := List.eq_nil_of_length_eq_zero (by omega)
    subst hnil
    simp [ceilDiv_zero_left]
  | succ n ih =>
    intro content h
    rcases Nat.eq_zero_or_pos content.length with h0 | hpos
    · have hnil : content = [] := List.eq_nil_of_length_eq_zero h0
      subst hnil
      simp [ceilDiv_zero_left]
    · rw [ceilDiv_sub content.length K hpos hK, List.range_succ_eq_map, List.map_cons,
        List.flatten_cons, List.map_map]
      have hmap : (List.map (chunkOf content K ∘ Nat.succ)
          (List.range (ceilDiv (content.length - K) K)))
          = List.map (chunkOf (content.drop K) K)
            (List.range (ceilDiv (content.length - K) K)) := by
        apply List.map_congr_left
        intro i _
        simp only [Function.comp]
        exact chunkOf_succ content K i
      have hlen : (content.drop K).length = content.length - K := by
        simp [List.length_drop]
      have htail : ((List.range (ceilDiv (content.length - K) K)).map
          (chunkOf (content.drop K) K)).flatten = content.drop K := by
        have := ih (content.drop K) (by simp [List.length_drop]; omega)
        rwa [hlen] at this
      rw [hmap, htail]
      simp [chunkOf]

/-- A value returned by `verifyParts` is always a failing part: the
claim-level mismatch condition. -/
theorem verifyParts_none_iff (serverParts : List Part) :
    ∀ localParts : List LocalPart,
      verifyParts serverParts localParts = none ↔
        ∀ lp ∈ localParts, matchesServer serverParts lp = true := by
  intro localParts
  induction localParts with
  | nil => simp [verifyParts]
  | cons lp rest ih =>
    simp only [verifyParts, matchesServer, List.mem_cons]
    cases hf : findPart serverParts lp.partNumber with
    | none =>
      simp only [hf]
      constructor
      · intro h; exact absurd h (by simp)
      · intro h
        have := h lp (Or.inl rfl)
        simp [matchesServer, hf] at this
    | some sp =>
      simp only [hf]
      by_cases he : sp.etag = lp.etag
      · simp only [he, if_true, ih]
        constructor
        · intro h lp2 h2
          rcases h2 with h2 | h2
          · subst h2; simp [matchesServer, hf, he]
          · exact h lp2 h2
        · intro h lp2 h2
          exact h lp2 (Or.inr h2)
      · simp only [he, if_false]
        constructor
        · intro h; exact absurd h (by simp)
        · intro h
          have := h lp (Or.inl rfl)
          simp [matchesServer, hf] at this
          exact absurd this he

theorem countPut_append (a b : List Call) : countPut (a ++ b) = countPut a + countPut b := by
  simp [countPut, List.filter_append]

theorem countGet_append (a b : List Call) : countGet (a ++ b) = countGet a + countGet b := by
  simp [countGet, List.filter_append]

theorem countAsync_append (a b : List Call) :
    countAsync (a ++ b) = countAsync a + countAsync b := by
  simp [countAsync, List.filter_append]

theorem finishUpload_sync (r : Remote) (calls : List Call)
    (h : r.complete.isAsync = false) :
    finishUpload r calls =
      (Except.ok r.complete.fileID,
        calls ++ [Call.completeUpload r.create.preuploadID]) := by
  simp [finishUpload, h]

theorem finishUpload_async (r : Remote) (calls : List Call) (fid n : Nat)
    (h : r.complete.isAsync = true) (hp : pollLoop r.asyncResults = some (fid, n)) :
    finishUpload r calls =
      (Except.ok fid,
        calls ++ [Call.completeUpload r.create.preuploadID]
          ++ List.replicate n (Call.checkAsync r.create.preuploadID)) := by
  simp [finishUpload, h, hp]

theorem upload_file_ok_countPut (md5hex : List Nat → String) (content : List Nat)
    (r : Remote) (hre : r.create.reuse = false) (hK : r.create.sliceSize ≠ 0)
    (hput : ∀ n, r.putOk n = true) :
    countPut (upload_file md5hex content r).2 =
      ceilDiv content.length r.create.sliceSize := by
  rw [upload_file_ok_eq md5hex content r hre hK hput]
  by_cases hlt : r.create.sliceSize < content.length
  · simp only [hlt, if_true]
    cases hv : verifyParts r.parts (localRecords md5hex content r.create.sliceSize) with
    | some k =>
      simp only [countPut_append, chunkCallsFor_countPut, List.length_range]
      simp [countPut, List.filter, isPut]
    | none =>
      rw [finishUpload_countPut, countPut_append, chunkCallsFor_countPut, List.length_range]
      simp [countPut, List.filter, isPut]
  · simp only [hlt, if_false]
    rw [finishUpload_countPut, chunkCallsFor_countPut, List.length_range]

theorem upload_file_ok_countGet (md5hex : List Nat → String) (content : List Nat)
    (r : Remote) (hre : r.create.reuse = false) (hK : r.create.sliceSize ≠ 0)
    (hput : ∀ n, r.putOk n = true) :
    countGet (upload_file md5hex content r).2 =
      ceilDiv content.length r.create.sliceSize := by
  rw [upload_file_ok_eq md5hex content r hre hK hput]
  by_cases hlt : r.create.sliceSize < content.length
  · simp only [hlt, if_true]
    cases hv : verifyParts r.parts (localRecords md5hex content r.create.sliceSize) with
    | some k =>
      simp only [countGet_append, chunkCallsFor_countGet, List.length_range]
      simp [countGet, List.filter, isGet]
    | none =>
      rw [finishUpload_countGet, countGet_append, chunkCallsFor_countGet, List.length_range]
      simp [countGet, List.filter, isGet]
  · simp only [hlt, if_false]
    rw [finishUpload_countGet, chunkCallsFor_countGet, List.length_range]

theorem upload_file_ok_listParts_iff (md5hex : List Nat → String) (content : List Nat)
    (r : Remote) (hre : r.create.reuse = false) (hK : r.create.sliceSize ≠ 0)
    (hput : ∀ n, r.putOk n = true) (p : String) :
    (Call.listParts p ∈ (upload_file md5hex content r).2 ↔
      r.create.sliceSize < content.length ∧ p = r.create.preuploadID) := by
  rw [upload_file_ok_eq md5hex content r hre hK hput]
  by_cases hlt : r.create.sliceSize < content.length
  · simp only [hlt, if_true]
    cases hv : verifyParts r.parts (localRecords md5hex content r.create.sliceSize) with
    | some k => simp [List.mem_append, chunkCallsFor_no_listParts, hlt]
    | none =>
      rw [finishUpload_listParts_mem]
      simp [List.mem_append, chunkCallsFor_no_listParts, hlt]
  · simp only [hlt, if_false]
    rw [finishUpload_listParts_mem]
    simp [chunkCallsFor_no_listParts, hlt]

/-- Evaluation of `upload_file` when, in addition, verification passes
whenever it applies: the session is the chunk calls, the optional
list-parts call, and the completion step. -/
theorem upload_file_pass_eq (md5hex : List Nat → String) (content : List Nat)
    (r : Remote) (hre : r.create.reuse = false) (hK : r.create.sliceSize ≠ 0)
    (hput : ∀ n, r.putOk n = true)
    (hver : r.create.sliceSize < content.length →
      verifyParts r.parts (localRecords md5hex content r.create.sliceSize) = none) :
    upload_file md5hex content r =
      finishUpload r
        (chunkCallsFor r.create.preuploadID
            (List.range (ceilDiv content.length r.create.sliceSize))
          ++ (if r.create.sliceSize < content.length
              then [Call.listParts r.create.preuploadID] else [])) := by
  rw [upload_file_ok_eq md5hex content r hre hK hput]
  by_cases hlt : r.create.sliceSize < content.length
  · simp only [hlt, if_true, hver hlt]
  · simp only [hlt, if_false, List.append_nil]

/-! ### Claims -/

/-- C3: when the create-file call reports `reuse = true`, `upload_file`
returns the remote file id contained in the create-file response and
the call trace is empty: no get-chunk-target, chunk-transfer,
list-uploaded-parts, complete-upload, or poll-async-result call is
made. -/
theorem claim_C3 (md5hex : List Nat → String) (content : List Nat) (r : Remote)
    (hre : r.create.reuse = true) :
    upload_file md5hex content r = (Except.ok r.create.fileID, []) := by
  simp [upload_file, hre]

theorem claim_C3_witness :
    upload_file (fun _ => "") [1, 2, 3]
      ⟨⟨"tok", 42, true, 16⟩, fun _ => true, [], ⟨0, false, false⟩, []⟩ =
      (Except.ok 42, []) :=
  claim_C3 (fun _ => "") [1, 2, 3]
    ⟨⟨"tok", 42, true, 16⟩, fun _ => true, [], ⟨0, false, false⟩, []⟩ rfl

/-- C8: the whole-file digest computed incrementally over bounded
windows of at most 4096 bytes equals the digest of the entire byte
content in one pass (the single-call chunk digest of the whole
content); in particular it is a deterministic pure function of the
bytes. -/
theorem claim_C8 (md5hex : List Nat → String) (content : List Nat) :
    calculate_file_md5 md5hex content = calculate_chunk_md5 md5hex content := by
  unfold calculate_file_md5 calculate_chunk_md5
  rw [md5UpdateLoop_eq]
  simp

/-- C2: for slice size K > 0 (all chunk pushes succeeding), the session
issues exactly ceil(S/K) chunk-transfer calls; when S = K exactly one;
and when S = 0 it issues no get-chunk-target or chunk-transfer call,
performs no part verification, and still reaches the complete-upload
call. -/
theorem claim_C2 (md5hex : List Nat → String) (content : List Nat) (r : Remote)
    (hre : r.create.reuse = false) (hK : 0 < r.create.sliceSize)
    (hput : ∀ n, r.putOk n = true) :
    countPut (upload_file md5hex content r).2 =
      ceilDiv content.length r.create.sliceSize ∧
    (content.length = r.create.sliceSize →
      countPut (upload_file md5hex content r).2 = 1) ∧
    (content.length = 0 →
      countPut (upload_file md5hex content r).2 = 0 ∧
      countGet (upload_file md5hex content r).2 = 0 ∧
      (∀ p, Call.listParts p ∉ (upload_file md5hex content r).2) ∧
      Call.completeUpload r.create.preuploadID ∈ (upload_file md5hex content r).2) := by
  have hKne : r.create.sliceSize ≠ 0 := by omega
  refine ⟨upload_file_ok_countPut md5hex content r hre hKne hput, ?_, ?_⟩
  · intro hS
    rw [upload_file_ok_countPut md5hex content r hre hKne hput, hS,
      ceilDiv_self _ hK]
  · intro hS
    refine ⟨?_, ?_, ?_, ?_⟩
    · rw [upload_file_ok_countPut md5hex content r hre hKne hput, hS,
        ceilDiv_zero_left]
    · rw [upload_file_ok_countGet md5hex content r hre hKne hput, hS,
        ceilDiv_zero_left]
    · intro p hmem
      have := (upload_file_ok_listParts_iff md5hex content r hre hKne hput p).mp hmem
      omega
    · rw [upload_file_pass_eq md5hex content r hre hKne hput (by intro h; omega)]
      exact finishUpload_complete_mem r _

theorem claim_C2_witness :
    countPut (upload_file (fun _ => "") [9, 9, 9, 9]
        ⟨⟨"tok", 0, false, 4⟩, fun _ => true, [], ⟨7, false, true⟩, []⟩).2 =
      ceilDiv 4 4 ∧
    ((4 : Nat) = 4 →
      countPut (upload_file (fun _ => "") [9, 9, 9, 9]
        ⟨⟨"tok", 0, false, 4⟩, fun _ => true, [], ⟨7, false, true⟩, []⟩).2 = 1) ∧
    ((4 : Nat) = 0 →
      countPut (upload_file (fun _ => "") [9, 9, 9, 9]
        ⟨⟨"tok", 0, false, 4⟩, fun _ => true, [], ⟨7, false, true⟩, []⟩).2 = 0 ∧
      countGet (upload_file (fun _ => "") [9, 9, 9, 9]
        ⟨⟨"tok", 0, false, 4⟩, fun _ => true, [], ⟨7, false, true⟩, []⟩).2 = 0 ∧
      (∀ p, Call.listParts p ∉ (upload_file (fun _ => "") [9, 9, 9, 9]
        ⟨⟨"tok", 0, false, 4⟩, fun _ => true, [], ⟨7, false, true⟩, []⟩).2) ∧
      Call.completeUpload "tok" ∈ (upload_file (fun _ => "") [9, 9, 9, 9]
        ⟨⟨"tok", 0, false, 4⟩, fun _ => true, [], ⟨7, false, true⟩, []⟩).2) :=
  claim_C2 (fun _ => "") [9, 9, 9, 9]
    ⟨⟨"tok", 0, false, 4⟩, fun _ => true, [], ⟨7, false, true⟩, []⟩
    rfl (by decide) (fun n => rfl)

/-- C5: with slice size K > 0 and all chunk pushes succeeding, the
list-uploaded-parts verification step happens if and only if the file
size strictly exceeds the slice size, which is equivalent to
totalChunks = ceil(S/K) being greater than 1; a single-chunk upload
(S ≤ K) skips it entirely. -/
theorem claim_C5 (md5hex : List Nat → String) (content : List Nat) (r : Remote)
    (hre : r.create.reuse = false) (hK : 0 < r.create.sliceSize)
    (hput : ∀ n, r.putOk n = true) :
    (Call.listParts r.create.preuploadID ∈ (upload_file md5hex content r).2 ↔
      r.create.sliceSize < content.length) ∧
    (r.create.sliceSize < content.length ↔
      1 < ceilDiv content.length r.create.sliceSize) := by
  have hKne : r.create.sliceSize ≠ 0 := by omega
  constructor
  · rw [upload_file_ok_listParts_iff md5hex content r hre hKne hput]
    simp
  · exact (one_lt_ceilDiv_iff content.length r.create.sliceSize hK).symm

theorem claim_C5_witness :
    ((Call.listParts "tok" ∈ (upload_file (fun _ => "") [9]
        ⟨⟨"tok", 0, false, 4⟩, fun _ => true, [], ⟨7, false, true⟩, []⟩).2 ↔
      4 < 1) ∧ (4 < 1 ↔ 1 < ceilDiv 1 4)) :=
  claim_C5 (fun _ => "") [9]
    ⟨⟨"tok", 0, false, 4⟩, fun _ => true, [], ⟨7, false, true⟩, []⟩
    rfl (by decide) (fun n => rfl)

theorem countAsync_single_complete (p : String) :
    countAsync [Call.completeUpload p] = 0 := rfl

/-- C4: when verification applies (file strictly larger than the slice
size, all pushes succeeding) and some locally recorded chunk has no
server-side part with the same index and an equal digest, the upload
raises a verification error and the complete-upload call is never
made, so the session cannot reach Completed. -/
theorem claim_C4 (md5hex : List Nat → String) (content : List Nat) (r : Remote)
    (hre : r.create.reuse = false) (hK : r.create.sliceSize ≠ 0)
    (hput : ∀ n, r.putOk n = true)
    (hbig : r.create.sliceSize < content.length)
    (hmis : ∃ lp ∈ localRecords md5hex content r.create.sliceSize,
        matchesServer r.parts lp = false) :
    (∃ k, (upload_file md5hex content r).1 =
        Except.error (UploadError.verifyFailed k)) ∧
    ∀ p, Call.completeUpload p ∉ (upload_file md5hex content r).2 := by
  have hv : verifyParts r.parts (localRecords md5hex content r.create.sliceSize) ≠ none := by
    intro h
    obtain ⟨lp, hmem, hfalse⟩ := hmis
    have := (verifyParts_none_iff r.parts _).mp h lp hmem
    rw [this] at hfalse
    cases hfalse
  obtain ⟨k, hk⟩ := Option.ne_none_iff_exists'.mp hv
  rw [upload_file_ok_eq md5hex content r hre hK hput]
  simp only [hbig, if_true, hk]
  refine ⟨⟨k, rfl⟩, ?_⟩
  intro p
  simp only [List.mem_append]
  rintro (h | h)
  · exact chunkCallsFor_no_complete _ _ _ h
  · simp at h

theorem claim_C4_witness :
    (∃ k, (upload_file (fun _ => "a") [0, 1, 2]
        ⟨⟨"tok", 0, false, 2⟩, fun _ => true, [⟨1, "a"⟩, ⟨2, "b"⟩],
          ⟨7, false, true⟩, []⟩).1 =
      Except.error (UploadError.verifyFailed k)) ∧
    ∀ p, Call.completeUpload p ∉ (upload_file (fun _ => "a") [0, 1, 2]
        ⟨⟨"tok", 0, false, 2⟩, fun _ => true, [⟨1, "a"⟩, ⟨2, "b"⟩],
          ⟨7, false, true⟩, []⟩).2 :=
  claim_C4 (fun _ => "a") [0, 1, 2]
    ⟨⟨"tok", 0, false, 2⟩, fun _ => true, [⟨1, "a"⟩, ⟨2, "b"⟩], ⟨7, false, true⟩, []⟩
    rfl (by decide) (fun n => rfl) (by decide) (by decide)

/-- C6: when the complete-upload response reports async = true (and
completed = false) and the poll sequence answers completed = false
twice and then completed = true with file id 42, the upload returns 42
and makes exactly three poll-async-result calls. -/
theorem claim_C6 (md5hex : List Nat → String) (content : List Nat) (r : Remote)
    (a b : Nat) (hre : r.create.reuse = false) (hK : r.create.sliceSize ≠ 0)
    (hput : ∀ n, r.putOk n = true)
    (hver : r.create.sliceSize < content.length →
      verifyParts r.parts (localRecords md5hex content r.create.sliceSize) = none)
    (hasync : r.complete.isAsync = true) (hcomp : r.complete.completed = false)
    (hpolls : r.asyncResults = [(false, a), (false, b), (true, 42)]) :
    (upload_file md5hex content r).1 = Except.ok 42 ∧
    countAsync (upload_file md5hex content r).2 = 3 := by
  have hp : pollLoop r.asyncResults = some (42, 3) := by rw [hpolls]; rfl
  rw [upload_file_pass_eq md5hex content r hre hK hput hver,
    finishUpload_async r _ 42 3 hasync hp]
  refine ⟨rfl, ?_⟩
  rw [countAsync_append, countAsync_append, countAsync_append,
    chunkCallsFor_countAsync, countAsync_single_complete, pollTail_countAsync]
  have h2 : countAsync (if r.create.sliceSize < content.length
      then [Call.listParts r.create.preuploadID] else []) = 0 := by
    by_cases hlt : r.create.sliceSize < content.length <;>
      simp [hlt, countAsync, List.filter, isAsyncCall]
  rw [h2]

theorem claim_C6_witness :
    (upload_file (fun _ => "") [9]
        ⟨⟨"tok", 0, false, 4⟩, fun _ => true, [], ⟨7, true, false⟩,
          [(false, 0), (false, 0), (true, 42)]⟩).1 = Except.ok 42 ∧
    countAsync (upload_file (fun _ => "") [9]
        ⟨⟨"tok", 0, false, 4⟩, fun _ => true, [], ⟨7, true, false⟩,
          [(false, 0), (false, 0), (true, 42)]⟩).2 = 3 :=
  claim_C6 (fun _ => "") [9]
    ⟨⟨"tok", 0, false, 4⟩, fun _ => true, [], ⟨7, true, false⟩,
      [(false, 0), (false, 0), (true, 42)]⟩ 0 0
    rfl (by decide) (fun n => rfl) (fun h => absurd h (by decide)) rfl rfl rfl

/-- C9: when the transport push of chunk k fails (all earlier pushes
succeeding), the upload raises immediately: the result carries exactly
the locally recorded digests for chunk indices 1..k-1 (none for k or
later), the trace stops at chunk k, and no list-uploaded-parts or
complete-upload call is made. -/
theorem claim_C9 (md5hex : List Nat → String) (content : List Nat) (r : Remote) (k : Nat)
    (hre : r.create.reuse = false) (hK : r.create.sliceSize ≠ 0)
    (hk1 : 1 ≤ k) (hk2 : k ≤ ceilDiv content.length r.create.sliceSize)
    (hbefore : ∀ n, n < k → r.putOk n = true) (hfail : r.putOk k = false) :
    (upload_file md5hex content r).1 =
      Except.error (UploadError.chunkUploadFailed k
        ((List.range (k - 1)).map fun i =>
          ⟨i + 1, calculate_chunk_md5 md5hex (chunkOf content r.create.sliceSize i)⟩)) ∧
    (upload_file md5hex content r).2 =
      chunkCallsFor r.create.preuploadID (List.range k) ∧
    (∀ p, Call.listParts p ∉ (upload_file md5hex content r).2) ∧
    (∀ p, Call.completeUpload p ∉ (upload_file md5hex content r).2) := by
  have hloop := chunkLoop_fail md5hex content r.create.sliceSize r.create.preuploadID
    r.putOk k hfail hbefore (ceilDiv content.length r.create.sliceSize) 0 []
    (by omega) (by omega)
  have hrange : List.range (ceilDiv content.length r.create.sliceSize) =
      List.range' 0 (ceilDiv content.length r.create.sliceSize) :=
    List.range_eq_range' _
  have hupl : upload_file md5hex content r =
      (Except.error (UploadError.chunkUploadFailed k
        (([] : List LocalPart) ++ (List.range' 0 (k - 1 - 0)).map fun i =>
          ⟨i + 1, calculate_chunk_md5 md5hex (chunkOf content r.create.sliceSize i)⟩)),
       chunkCallsFor r.create.preuploadID (List.range' 0 (k - 0))) := by
    simp only [upload_file, hre, Bool.false_eq_true, if_false, hK, hrange, hloop]
  rw [hupl]
  have e1 : k - 1 - 0 = k - 1 := by omega
  have e2 : k - 0 = k := by omega
  rw [e1, e2, List.nil_append, ← List.range_eq_range', ← List.range_eq_range']
  refine ⟨rfl, rfl, ?_, ?_⟩
  · intro p
    exact chunkCallsFor_no_listParts _ _ _
  · intro p
    exact chunkCallsFor_no_complete _ _ _

theorem claim_C9_witness :
    (upload_file (fun _ => "a") [0, 1, 2, 3, 4]
        ⟨⟨"tok", 0, false, 2⟩, fun n => n != 2, [], ⟨7, false, true⟩, []⟩).1 =
      Except.error (UploadError.chunkUploadFailed 2
        ((List.range (2 - 1)).map fun i =>
          ⟨i + 1, calculate_chunk_md5 (fun _ => "a") (chunkOf [0, 1, 2, 3, 4] 2 i)⟩)) ∧
    (upload_file (fun _ => "a") [0, 1, 2, 3, 4]
        ⟨⟨"tok", 0, false, 2⟩, fun n => n != 2, [], ⟨7, false, true⟩, []⟩).2 =
      chunkCallsFor "tok" (List.range 2) ∧
    (∀ p, Call.listParts p ∉ (upload_file (fun _ => "a") [0, 1, 2, 3, 4]
        ⟨⟨"tok", 0, false, 2⟩, fun n => n != 2, [], ⟨7, false, true⟩, []⟩).2) ∧
    (∀ p, Call.completeUpload p ∉ (upload_file (fun _ => "a") [0, 1, 2, 3, 4]
        ⟨⟨"tok", 0, false, 2⟩, fun n => n != 2, [], ⟨7, false, true⟩, []⟩).2) :=
  claim_C9 (fun _ => "a") [0, 1, 2, 3, 4]
    ⟨⟨"tok", 0, false, 2⟩, fun n => n != 2, [], ⟨7, false, true⟩, []⟩ 2
    rfl (by decide) (by decide) (by decide) (by decide) (by decide)

/-- The same remote behaviour with the create-file response's fileID
field replaced. -/
def withCreateFileID (r : Remote) (g : Nat) : Remote :=
  { r with create := { r.create with fileID := g } }

/-- C10: on a successful non-reuse upload, the returned file id comes
from the complete-upload response when it is not async, and otherwise
from the first poll response reporting completed = true; the fileID
field of the create-file response never influences the result on the
non-reuse path (replacing it changes nothing). -/
theorem claim_C10 (md5hex : List Nat → String) (content : List Nat) (r : Remote)
    (hre : r.create.reuse = false) (hK : r.create.sliceSize ≠ 0)
    (hput : ∀ n, r.putOk n = true)
    (hver : r.create.sliceSize < content.length →
      verifyParts r.parts (localRecords md5hex content r.create.sliceSize) = none) :
    (r.complete.isAsync = false →
      (upload_file md5hex content r).1 = Except.ok r.complete.fileID) ∧
    (∀ fid n, r.complete.isAsync = true → pollLoop r.asyncResults = some (fid, n) →
      (upload_file md5hex content r).1 = Except.ok fid) ∧
    (∀ g, upload_file md5hex content (withCreateFileID r g) =
      upload_file md5hex content r) := by
  refine ⟨?_, ?_, ?_⟩
  · intro hs
    rw [upload_file_pass_eq md5hex content r hre hK hput hver,
      finishUpload_sync r _ hs]
  · intro fid n hs hp
    rw [upload_file_pass_eq md5hex content r hre hK hput hver,
      finishUpload_async r _ fid n hs hp]
  · intro g
    obtain ⟨⟨pid, fid0, reuse, K⟩, putOk, parts, comp, ar⟩ := r
    have hre2 : reuse = false := hre
    subst hre2
    rfl

theorem claim_C10_witness :
    (false = false →
      (upload_file (fun _ => "") [9]
        ⟨⟨"tok", 5, false, 4⟩, fun _ => true, [], ⟨7, false, true⟩, []⟩).1 =
        Except.ok 7) ∧
    (∀ fid n, false = true →
      pollLoop ([] : List (Bool × Nat)) = some (fid, n) →
      (upload_file (fun _ => "") [9]
        ⟨⟨"tok", 5, false, 4⟩, fun _ => true, [], ⟨7, false, true⟩, []⟩).1 =
        Except.ok fid) ∧
    (∀ g, upload_file (fun _ => "") [9]
        (withCreateFileID ⟨⟨"tok", 5, false, 4⟩, fun _ => true, [], ⟨7, false, true⟩, []⟩ g) =
      upload_file (fun _ => "") [9]
        ⟨⟨"tok", 5, false, 4⟩, fun _ => true, [], ⟨7, false, true⟩, []⟩) :=
  claim_C10 (fun _ => "") [9]
    ⟨⟨"tok", 5, false, 4⟩, fun _ => true, [], ⟨7, false, true⟩, []⟩
    rfl (by decide) (fun n => rfl) (fun h => absurd h (by decide))

/-- C7: for a file of 10,000,000 bytes with slice size 4,194,304 the
plan is 3 chunks covering exactly the ranges [0,4194304),
[4194304,8388608), [8388608,10000000) in index order, verification is
performed, and in general the planned chunks are contiguous, disjoint
and partition the file (their concatenation in index order is the whole
content). -/
theorem claim_C7 (md5hex : List Nat → String) (content : List Nat) (r : Remote)
    (hlen : content.length = 10000000) (hre : r.create.reuse = false)
    (hK : r.create.sliceSize = 4194304) (hput : ∀ n, r.putOk n = true) :
    ceilDiv 10000000 4194304 = 3 ∧
    chunkOf content 4194304 0 = content.take 4194304 ∧
    chunkOf content 4194304 1 = (content.drop 4194304).take 4194304 ∧
    chunkOf content 4194304 2 = (content.drop 8388608).take 4194304 ∧
    (chunkOf content 4194304 0).length = 4194304 ∧
    (chunkOf content 4194304 1).length = 4194304 ∧
    (chunkOf content 4194304 2).length = 1611392 ∧
    ((List.range 3).map (chunkOf content 4194304)).flatten = content ∧
    Call.listParts r.create.preuploadID ∈ (upload_file md5hex content r).2 ∧
    (∀ (c2 : List Nat) (K : Nat), 0 < K →
      ((List.range (ceilDiv c2.length K)).map (chunkOf c2 K)).flatten = c2) := by
  have hceil : ceilDiv 10000000 4194304 = 3 := by decide
  have hgen : ∀ (c2 : List Nat) (K : Nat), 0 < K →
      ((List.range (ceilDiv c2.length K)).map (chunkOf c2 K)).flatten = c2 :=
    fun c2 K hKpos => chunks_flatten_fuel K hKpos c2.length c2 (Nat.le_refl _)
  refine ⟨hceil, ?_, ?_, ?_, ?_, ?_, ?_, ?_, ?_, hgen⟩
  · simp [chunkOf]
  · simp [chunkOf]
  · show (content.drop (2 * 4194304)).take 4194304 = (content.drop 8388608).take 4194304
    norm_num
  · simp [chunkOf, List.length_take, List.length_drop, hlen]
  · simp [chunkOf, List.length_take, List.length_drop, hlen]
  · show ((content.drop (2 * 4194304)).take 4194304).length = 1611392
    simp [List.length_take, List.length_drop, hlen]
  · have := hgen content 4194304 (by decide)
    rwa [hlen, hceil] at this
  · rw [upload_file_ok_listParts_iff md5hex content r hre (by omega) hput]
    constructor
    · omega
    · rfl

theorem claim_C7_witness :
    ceilDiv 10000000 4194304 = 3 ∧
    chunkOf (List.replicate 10000000 0) 4194304 0 =
      (List.replicate 10000000 0).take 4194304 ∧
    chunkOf (List.replicate 10000000 0) 4194304 1 =
      ((List.replicate 10000000 0).drop 4194304).take 4194304 ∧
    chunkOf (List.replicate 10000000 0) 4194304 2 =
      ((List.replicate 10000000 0).drop 8388608).take 4194304 ∧
    (chunkOf (List.replicate 10000000 0) 4194304 0).length = 4194304 ∧
    (chunkOf (List.replicate 10000000 0) 4194304 1).length = 4194304 ∧
    (chunkOf (List.replicate 10000000 0) 4194304 2).length = 1611392 ∧
    ((List.range 3).map (chunkOf (List.replicate 10000000 0) 4194304)).flatten =
      List.replicate 10000000 0 ∧
    Call.listParts "tok" ∈ (upload_file (fun _ => "") (List.replicate 10000000 0)
      ⟨⟨"tok", 0, false, 4194304⟩, fun _ => true, [], ⟨7, false, true⟩, []⟩).2 ∧
    (∀ (c2 : List Nat) (K : Nat), 0 < K →
      ((List.range (ceilDiv c2.length K)).map (chunkOf c2 K)).flatten = c2) :=
  claim_C7 (fun _ => "") (List.replicate 10000000 0)
    ⟨⟨"tok", 0, false, 4194304⟩, fun _ => true, [], ⟨7, false, true⟩, []⟩
    (List.length_replicate 10000000 0) rfl rfl (fun n => rfl)

/-- C1 fails on the code: a success create-file response with
reuse = false whose preuploadID is absent (decoded as the empty string)
but whose sliceSize is positive does not make the session fail at all —
no error is raised and the chunk transfer is attempted with the empty
session token, reaching completion. -/
theorem claim_C1_counterexample :
    (upload_file (fun _ => "") [7]
      ⟨⟨"", 5, false, 4⟩, fun _ => true, [], ⟨9, false, true⟩, []⟩).1 =
        Except.ok 9 ∧
    Call.putChunk 1 ∈ (upload_file (fun _ => "") [7]
      ⟨⟨"", 5, false, 4⟩, fun _ => true, [], ⟨9, false, true⟩, []⟩).2 ∧
    Call.getUploadUrl "" 1 ∈ (upload_file (fun _ => "") [7]
      ⟨⟨"", 5, false, 4⟩, fun _ => true, [], ⟨9, false, true⟩, []⟩).2 := by
  refine ⟨rfl, ?_, ?_⟩ <;> decide

/-- C1 amended: only the slice-size half of the check exists, and only
accidentally: when the create-file response reports success with
reuse = false and sliceSize = 0 (the decode default when the field is
omitted), the chunk-planning division raises ZeroDivisionError before
any get-chunk-target or chunk-transfer call (the trace is empty); an
omitted preuploadID (decoded as "") is not detected and does not
prevent chunk transfer. -/
theorem claim_C1_amended (md5hex : List Nat → String) (content : List Nat) (r : Remote)
    (hre : r.create.reuse = false) (hK : r.create.sliceSize = 0) :
    upload_file md5hex content r = (Except.error UploadError.divisionByZero, []) := by
  simp [upload_file, hre, hK]

theorem claim_C1_amended_witness :
    upload_file (fun _ => "") [7]
      ⟨⟨"", 5, false, 0⟩, fun _ => true, [], ⟨9, false, true⟩, []⟩ =
      (Except.error UploadError.divisionByZero, []) :=
  claim_C1_amended (fun _ => "") [7]
    ⟨⟨"", 5, false, 0⟩, fun _ => true, [], ⟨9, false, true⟩, []⟩ rfl rfl

end Pan123
